import Mathlib

/-!
Verification of the line-oriented JavaScript-to-Python transpiler in
geemap/conversion.py.  Python strings are modelled as lists of characters
(`PyStr`); fallible Python operations (`str.index`, `deque.popleft`,
list indexing) return `Option` / `Except` values, with `none` / `.error ()`
marking a raised exception.  Python's negative-index and slice semantics
are reproduced exactly where the source can produce negative indices
(the sentinel pair returned by `find_matching_bracket`).
-/

set_option autoImplicit false

abbrev PyStr := List Char

def S (s : String) : PyStr := s.toList

/-- Python whitespace characters stripped by `str.strip` and friends. -/
def isPySpace (c : Char) : Bool :=
  (c = ' ') || (c = '\t') || (c = '\n') || (c = '\r') || (c = '\x0b') || (c = '\x0c')

def pyLstrip (l : PyStr) : PyStr := l.dropWhile isPySpace

def pyRstrip (l : PyStr) : PyStr := (l.reverse.dropWhile isPySpace).reverse

def pyStrip (l : PyStr) : PyStr := pyLstrip (pyRstrip l)

/-- Python `str.find`: index of the first occurrence of `sub`, `none` if absent. -/
def strFind (sub : PyStr) : PyStr → Option Nat
  | [] => if sub.isPrefixOf ([] : PyStr) then some 0 else none
  | c :: rest =>
    if sub.isPrefixOf (c :: rest) then some 0
    else (strFind sub rest).map (· + 1)

/-- Python `sub in s` substring test. -/
def containsStr (sub s : PyStr) : Bool := (strFind sub s).isSome

/-- Python `s.replace('', new)`: `new` is inserted before every character and at the end. -/
def interleave (new : PyStr) : PyStr → PyStr
  | [] => new
  | c :: rest => new ++ c :: interleave new rest

/-- Python `str.replace` with a nonempty pattern: leftmost, non-overlapping.
The structural `fuel` argument only bounds the number of scanning steps;
each step consumes at least one character, so the wrapper's `s.length` is
always enough and the fuel never runs out. -/
def replAllF (old new : PyStr) : Nat → PyStr → PyStr
  | 0, s => s
  | _, [] => []
  | fuel + 1, c :: rest =>
    if old.length ≠ 0 ∧ old.isPrefixOf (c :: rest) = true then
      new ++ replAllF old new fuel (rest.drop (old.length - 1))
    else
      c :: replAllF old new fuel rest

/-- Python `s.replace(old, new)`. -/
def replAll (old new s : PyStr) : PyStr :=
  if old = [] then interleave new s else replAllF old new s.length s

/-- Python `s.replace(old, new, 1)`: only the first occurrence is replaced. -/
def replFirst (old new : PyStr) : PyStr → PyStr
  | [] => if old = [] then new else []
  | c :: rest =>
    if old = [] then new ++ c :: rest
    else if old.isPrefixOf (c :: rest) then new ++ (c :: rest).drop old.length
    else c :: replFirst old new rest

/-- Python `s.split(sep)` for a nonempty separator; the accumulator holds
the current piece reversed, and the structural `fuel` argument bounds the
scanning steps exactly as in `replAllF`. -/
def pySplitF (sep : PyStr) : Nat → PyStr → PyStr → List PyStr
  | 0, s, acc => [acc.reverse ++ s]
  | _, [], acc => [acc.reverse]
  | fuel + 1, c :: rest, acc =>
    if sep.length ≠ 0 ∧ sep.isPrefixOf (c :: rest) = true then
      acc.reverse :: pySplitF sep fuel (rest.drop (sep.length - 1)) []
    else
      pySplitF sep fuel rest (c :: acc)

def pySplit (sep s : PyStr) : List PyStr :=
  if sep = [] then [s] else pySplitF sep s.length s []

/-- Normalization of a Python slice bound for a sequence of length `n`. -/
def pyBound (n : Nat) (i : Int) : Nat :=
  if i < 0 then (if (-i).toNat ≤ n then n - (-i).toNat else 0) else min i.toNat n

/-- Python `l[:i]` with a possibly negative bound. -/
def pyTakeI {α : Type} (l : List α) (i : Int) : List α := l.take (pyBound l.length i)

/-- Python `l[i:]` with a possibly negative bound. -/
def pyDropI {α : Type} (l : List α) (i : Int) : List α := l.drop (pyBound l.length i)

/-- Python `l[a:b]`. -/
def pySliceL {α : Type} (l : List α) (a b : Int) : List α :=
  (l.take (pyBound l.length b)).drop (pyBound l.length a)

/-- Python `l[i]` with negative-index wrap-around; `none` is an `IndexError`. -/
def pyGetI {α : Type} (l : List α) (i : Int) : Option α :=
  if 0 ≤ i then l.get? i.toNat
  else if (-i).toNat ≤ l.length then l.get? (l.length - (-i).toNat) else none

/-- Python `l[i] = x` with negative-index wrap-around; `none` is an `IndexError`. -/
def pySetI {α : Type} (l : List α) (i : Int) (x : α) : Option (List α) :=
  if 0 ≤ i then (if i.toNat < l.length then some (l.set i.toNat x) else none)
  else if (-i).toNat ≤ l.length then some (l.set (l.length - (-i).toNat) x) else none

/-- Character of `lines` at line `sl`, column `sc`. -/
def charAt (lines : List PyStr) (sl sc : Nat) : Option Char :=
  (lines.get? sl).bind (fun l => l.get? sc)

/-- The `matching_chars` table of `find_matching_bracket`. -/
def bracketClose (c : Char) : Option Char :=
  if c = '\x7b' then some '\x7d'
  else if c = '(' then some ')'
  else if c = '[' then some ']'
  else none

/-- Result of scanning one line: `err` is a `popleft` from the empty deque
(`IndexError`), `found j` a match at column `j`, `cont d` an exhausted line
with `d` markers still on the stack. -/
inductive ScanR : Type where
  | err : ScanR
  | found : Nat → ScanR
  | cont : Nat → ScanR

def bumpR : ScanR → ScanR
  | .err => .err
  | .found j => .found (j + 1)
  | .cont d => .cont d

/-- The inner character loop of `find_matching_bracket` over one line,
entered with `d` markers on the stack. -/
def scanLine (op cl : Char) : PyStr → Nat → ScanR
  | [], d => .cont d
  | c :: rest, d =>
    if c = cl then
      if d = 0 then .err
      else if d = 1 then .found 0
      else bumpR (scanLine op cl rest (d - 1))
    else if c = op then bumpR (scanLine op cl rest (d + 1))
    else if d = 0 then .found 0
    else bumpR (scanLine op cl rest d)

/-- The outer line loop of `find_matching_bracket`: the match position is
relative (line offset, column); `.ok none` means the input was exhausted. -/
def scanLines (op cl : Char) : List PyStr → Nat → Except Unit (Option (Nat × Nat))
  | [], _ => .ok none
  | l :: rest, d =>
    match scanLine op cl l d with
    | .err => .error ()
    | .found j => .ok (some (0, j))
    | .cont d2 =>
      match scanLines op cl rest d2 with
      | .error () => .error ()
      | .ok none => .ok none
      | .ok (some (r, j)) => .ok (some (r + 1, j))

/-- geemap.conversion.find_matching_bracket.  `.error ()` models the
uncaught `IndexError` raised by `d.popleft()` on an empty deque; the
sentinel pair `(-1, -1)` is returned for an unsupported bracket character
or an exhausted input. -/
def find_matching_bracket (lines : List PyStr) (start_line_index start_char_index : Nat)
    (matching_char : Char) : Except Unit (Int × Int) :=
  match bracketClose matching_char with
  | none => .ok (-1, -1)
  | some cl =>
    match lines.drop start_line_index with
    | [] => .ok (-1, -1)
    | first :: rest =>
      match scanLines matching_char cl (first.drop start_char_index :: rest) 0 with
      | .error () => .error ()
      | .ok none => .ok (-1, -1)
      | .ok (some (0, j)) => .ok ((start_line_index : Int), ((start_char_index + j : Nat) : Int))
      | .ok (some (r + 1, j)) => .ok (((start_line_index + (r + 1) : Nat) : Int), (j : Int))

/-- The quoting step of `format_params` for one `items[i]` in the
more-than-one-colon branch. -/
def quoteItem (it : PyStr) : PyStr :=
  if containsStr (S ",") it then
    let subitems := pySplit (S ",") it
    let sub := (subitems.getLast?).getD []
    if !(containsStr (S "\"") sub) && !(containsStr (S "'") sub) then
      let newSub := S "'" ++ pyStrip sub ++ S "'"
      List.intercalate (S ", ") (subitems.dropLast ++ [replAll sub newSub sub])
    else it
  else
    if !(containsStr (S "\"") it) && !(containsStr (S "'") it) then
      let newIt := S "'" ++ pyStrip it ++ S "'"
      List.replicate (it.length - (pyStrip it).length) ' ' ++ replAll it newIt it
    else it

/-- geemap.conversion.format_params (with the default separator `:`).
`none` models the `IndexError` raised by `indices[0]` when the line has an
opening brace but no colon. -/
def format_params (line : PyStr) : Option PyStr :=
  let sep := S ":"
  if (S "for").isPrefixOf (pyStrip line) then some line
  else
    let count := (pySplit sep line).length - 1
    let braceSplit : Option (PyStr × PyStr) :=
      if containsStr (S "\x7b") line then
        match strFind (S "\x7b") line, strFind sep line with
        | some bi, some i0 =>
          if bi < i0 then some (line.take (bi + 1), line.drop (bi + 1)) else some ([], line)
        | some _, none => none
        | none, _ => none
      else some ([], line)
    match braceSplit with
    | none => none
    | some (pre, rem) =>
      if count = 0 then some (pre ++ line)
      else
        let items := pySplit sep rem
        if count = 1 then
          let it := items.headD []
          let itemS := pyStrip it
          let it2 :=
            if !(containsStr (S "\"") itemS) && !(containsStr (S "'") itemS) then
              replAll itemS (S "'" ++ itemS ++ S "'") it
            else it
          some (pre ++ List.intercalate (S ":") (it2 :: items.tail))
        else
          some (pre ++ List.intercalate (S ":")
            ((items.take count).map quoteItem ++ items.drop count))

/-- geemap.conversion.convert_for_loop.  `none` models the `ValueError` /
`IndexError` raised when the line has no parentheses or fewer than three
semicolon-separated clauses. -/
def convert_for_loop (line : PyStr) : Option PyStr := do
  let line := if containsStr (S "var ") line then replAll (S "var ") [] line else line
  let start_index ← strFind (S "(") line
  let end_index ← strFind (S ")") line
  let pre := line.take start_index
  let suf := line.drop (end_index + 1)
  let params := (line.take end_index).drop (start_index + 1)
  if containsStr (S " in ") params = true ∧ params.count ';' = 0 then
    some (pre ++ params ++ S ":" ++ suf)
  else
    let items1 := pySplit (S "=") params
    let param_name := pyStrip (items1.headD [])
    let items := pySplit (S ";") params
    let subitems := items.map (fun it => ((pySplit (S " ") it).getLast?).getD [])
    let start ← subitems.get? 0
    let endv ← subitems.get? 1
    let step0 ← subitems.get? 2
    let step :=
      if containsStr (S "++") step0 then S "1"
      else if containsStr (S "--") step0 then S "-1"
      else step0
    some (pre ++ param_name ++ S " in range(" ++ start ++ S ", " ++ endv ++ S ", "
      ++ step ++ S "):" ++ suf)

/-- Sets `cnt` entries of `l` to the empty string, starting at position `s`
(the blanking loop of `check_map_functions`). -/
def blankFrom : List PyStr → Nat → Nat → List PyStr
  | l, _, 0 => l
  | l, s, n + 1 => blankFrom (l.set s []) (s + 1) n

/-- The guard of `check_map_functions`: the two recognized textual variants
of an inline anonymous-function callback. -/
def hasMapMarker (l : PyStr) : Bool :=
  containsStr (S ".map(function") l || containsStr (S ".map (function") l

/-- The hoisting branch of the `check_map_functions` loop body, for the
line `line` at index `i` of the live list `ls`, with the generated name
`fname`.  Returns the mutated list together with the lines appended to
`output_lines`; `none` models an uncaught exception. -/
def cmfHoist (fname : PyStr) (ls : List PyStr) (i : Nat) (line : PyStr) :
    Option (List PyStr × List PyStr) := do
  let bi ← strFind (S "\x7b") line
  let mc ← (find_matching_bracket ls i bi '\x7b').toOption
  let fsi ← strFind (S "function") line
  let fheader := replAll (S "function") (S "function " ++ fname) (line.drop fsi)
  let body := pySliceL ls ((i : Int) + 1) mc.1
  let ls1 := blankFrom ls (i + 1) body.length
  let hline := pyRstrip (line.take fsi ++ fname)
  let mline ← pyGetI ls1 mc.1
  let ffooter := pyTakeI mline (mc.2 + 1)
  let fline := pyStrip (pyDropI mline (mc.2 + 1))
  let pair :=
    if fline = S ")" ∨ fline = S ");" then (hline ++ fline, ([] : PyStr))
    else (hline, fline)
  let ls2 ← pySetI ls1 mc.1 pair.2
  some (ls2, [S "\n", fheader] ++ body ++ [ffooter, pair.1, pair.2])

def cmfGo (names : Nat → PyStr) : Nat → List PyStr → Nat → Nat → List PyStr → Option (List PyStr)
  | 0, _, _, _, out => some out
  | fuel + 1, ls, i, ctr, out =>
    match ls.get? i with
    | none => some out
    | some line =>
      if hasMapMarker line then
        match cmfHoist (S "func_" ++ names ctr) ls i line with
        | none => none
        | some (ls2, app) => cmfGo names fuel ls2 (i + 1) (ctr + 1) (out ++ app)
      else cmfGo names fuel ls (i + 1) ctr (out ++ [line])

/-- geemap.conversion.check_map_functions.  `names` stands in for the
stream of `random_string()` suffixes; `none` models an uncaught exception
(`str.index` failing, or the bracket matcher raising). -/
def check_map_functions (names : Nat → PyStr) (input_lines : List PyStr) : Option (List PyStr) :=
  cmfGo names input_lines.length input_lines 0 0 []

/-- geemap.conversion.use_math: whether any line mentions the JS Math namespace. -/
def use_math (lines : List PyStr) : Bool :=
  lines.foldl (fun acc l => if containsStr (S "Math.") l then true else acc) false

/-- The `is_python` detection loop of `js_to_python`: a line equal to
`import ee` after stripping marks the file as already Python. -/
def isPythonScript (lines : List PyStr) : Bool :=
  lines.foldl (fun acc l => if pyStrip l = S "import ee" then true else acc) false

/-- The boolean/null literal substitutions of the `js_to_python` line loop
(`true` → `True`, `false` → `False`, `null` → the empty dict literal),
applied in the source's order as plain substring replacements. -/
def literal_subst (line : PyStr) : PyStr :=
  replAll (S "null") (S "\x7b\x7d")
    (replAll (S "false") (S "False")
      (replAll (S "true") (S "True") line))

/-- The rewrite of a function-declaration line after its braces have been
deleted: strip the declaration keywords and emit an indented `def ...:`. -/
def defLine (l : PyStr) : PyStr :=
  let l2 := replAll (S "function ") []
    (replAll (S "=function") [] (replAll (S " = function") [] l))
  List.replicate (l2.length - (pyLstrip l2).length) ' ' ++ S "def " ++ pyStrip l2 ++ S ":"

/-- The per-line loop of `js_to_python` (source lines 349-423) over the
live, mutated list `ls`, accumulating the output string.  `none` models an
uncaught exception from `str.index`, the bracket matcher, list indexing,
`convert_for_loop` or `format_params`. -/
def jtpGo : Nat → List PyStr → Nat → PyStr → Option PyStr
  | 0, _, _, output => some output
  | fuel + 1, ls, i, output =>
    match ls.get? i with
    | none => some output
    | some line0 => do
      let line1 ←
        if containsStr (S "/* color") line0 && containsStr (S "*/") line0 then do
          let a ← strFind (S "/*") line0
          let b ← strFind (S "*/") line0
          pure (pyLstrip (line0.take a) ++ line0.drop (b + 2))
        else pure line0
      let st ←
        if containsStr (S "= function") line1 || containsStr (S "=function") line1
            || (S "function").isPrefixOf (pyStrip line1) then do
          let bi ← strFind (S "\x7b") line1
          let mc ← (find_matching_bracket ls i bi '\x7b').toOption
          let lineA := line1.take bi ++ line1.drop (bi + 1)
          if mc.1 = (i : Int) then
            pure (ls, defLine (pyTakeI lineA mc.2 ++ pyDropI lineA (mc.2 + 1)))
          else do
            let tmp ← pyGetI ls mc.1
            let ls2 ← pySetI ls mc.1 (pyTakeI tmp mc.2 ++ pyDropI tmp (mc.2 + 1))
            pure (ls2, defLine lineA)
        else if containsStr (S "\x7b") line1 then do
          let bi ← strFind (S "\x7b") line1
          let mc ← (find_matching_bracket ls i bi '\x7b').toOption
          if mc.1 = (i : Int) && containsStr (S ":") line1 then pure (ls, line1)
          else if containsStr (S "for (") line1 || containsStr (S "for(") line1 then do
            let lineA ← convert_for_loop line1
            let lsA := ls.set i lineA
            let bi2 ← strFind (S "\x7b") lineA
            let mc2 ← (find_matching_bracket lsA i bi2 '\x7b').toOption
            let tmp ← pyGetI lsA mc2.1
            let lsB ← pySetI lsA mc2.1 (pyTakeI tmp mc2.2 ++ pyDropI tmp (mc2.2 + 1))
            pure (lsB, replAll (S "\x7b") [] lineA)
          else pure (ls, line1)
        else pure (ls, line1)
      let ls2 := st.1
      let l3 := replAll (S "//") (S "#") st.2
      let l4 := replFirst (S "var ") [] l3
      let l5 := replAll (S "/*") (S "#") l4
      let l6 := replAll (S "*/") (S "#") l5
      let l7 := literal_subst l6
      let l8 := replAll (S ".or") (S ".Or") l7
      let l9 := replAll (S ".and") (S ".And") l8
      let l10 := replAll (S ".not") (S ".Not") l9
      let l11 := replAll (S "visualize(\x7b") (S "visualize(**\x7b") l10
      let l12 := replAll (S "Math.PI") (S "math.pi") l11
      let l13 := replAll (S "Math.") (S "math.") l12
      let l14 := replAll (S "= new") (S "=") l13
      let l15 := pyRstrip l14
      let l16 :=
        if (S "+").isSuffixOf l15 then l15 ++ S " \\"
        else if (S ";").isSuffixOf l15 then l15.dropLast
        else l15
      let l17 :=
        if (S "*").isPrefixOf (pyLstrip l16) then replAll (S "*") (S "#") l16 else l16
      let l18 ←
        if containsStr (S ":") l17 && !((S "#").isPrefixOf (pyStrip l17))
            && !((S "def").isPrefixOf (pyStrip l17))
            && !((S ".").isPrefixOf (pyStrip l17)) then
          format_params l17
        else pure l17
      let l19 :=
        if i + 1 < ls2.length && (S "#").isPrefixOf (pyLstrip l18)
            && (match ls2.get? (i + 1) with
                | some nl => (S ".").isPrefixOf (pyLstrip nl)
                | none => false) then []
        else l18
      if (S ".").isPrefixOf (pyLstrip l19) then do
        let l20 ←
          if containsStr (S "#") l19 then do
            let k ← strFind (S "#") l19
            pure (l19.take k)
          else pure l19
        jtpGo fuel ls2 (i + 1) (pyRstrip output ++ S " \\" ++ S "\n" ++ l20 ++ S "\n")
      else
        jtpGo fuel ls2 (i + 1) (output ++ l19 ++ S "\n")

/-- The provenance comment `js_to_python` prepends when a GitHub repo URL
is supplied. -/
def githubUrlComment (github_repo : Option PyStr) (in_file : PyStr) : PyStr :=
  match github_repo with
  | none => []
  | some r => S "# GitHub URL: " ++ r ++ in_file ++ S "\n\n"

/-- geemap.conversion.js_to_python, restricted to its pure core: the file's
lines go in, the output text comes out (file-system plumbing omitted).
`names` supplies the `random_string()` suffixes used by the hoister. -/
def js_to_python_output (names : Nat → PyStr) (lines : List PyStr) (use_qgis : Bool)
    (github_repo : Option PyStr) (in_file : PyStr) : Option PyStr :=
  let qgis_import_str := if use_qgis then S "from ee_plugin import Map \n" else []
  let github_url := githubUrlComment github_repo in_file
  let math_import_str := if use_math lines then S "import math\n" else []
  if isPythonScript lines then some (github_url ++ lines.flatten)
  else
    let header := github_url ++ S "import ee \n" ++ qgis_import_str ++ math_import_str
    match check_map_functions names lines with
    | none => none
    | some ls => jtpGo ls.length ls 0 (header ++ S "\n")

def demoNames : Nat → PyStr := fun _ => S "abc"


/-- Concrete one-line hoisting example from the spec: a single-line
`.map(function ...)` call. -/
def hoistIn : List PyStr := [S "x = col.map(function(f) \x7b return f.val(); \x7d)"]

/-- The output of `check_map_functions` on `hoistIn` (with the random
suffix fixed to `abc`). -/
def hoistOut : List PyStr :=
  [S "\n",
   S "function func_abc(f) \x7b return f.val(); \x7d)",
   S "x = col.map(function(f) \x7b return f.val(); \x7d",
   S "x = col.map(func_abc)",
   []]

/-- The region of `lines` from position (`sl`, `sc`) on: the first line is
cut at column `sc`, the following lines are kept whole. -/
def sliceFrom (lines : List PyStr) (sl sc : Nat) : List PyStr :=
  match lines.drop sl with
  | [] => []
  | f :: r => f.drop sc :: r

/-- The characters of `lines` from position (`sl`, `sc`) to the end, in
scanning order. -/
def flatFrom (lines : List PyStr) (sl sc : Nat) : PyStr :=
  (sliceFrom lines sl sc).flatten

/-- The characters of a line region up to (and including) relative line
`r`, column `j`. -/
def takeThrough : List PyStr → Nat → Nat → PyStr
  | [], _, _ => []
  | l :: _, 0, j => l.take (j + 1)
  | l :: rest, r + 1, j => l ++ takeThrough rest r j

/-- The characters of `lines` from position (`sl`, `sc`) through position
(`ml`, `mc`), both inclusive, in scanning order. -/
def spanChars (lines : List PyStr) (sl sc ml mc : Nat) : PyStr :=
  takeThrough (sliceFrom lines sl sc) (ml - sl) (if ml = sl then mc - sc else mc)

theorem containsStr_nil_left (s : PyStr) : containsStr [] s = true := by
  cases s <;> rfl

theorem containsStr_cons_false {old : PyStr} {c : Char} {rest : PyStr}
    (h : containsStr old (c :: rest) = false) :
    old.isPrefixOf (c :: rest) = false ∧ containsStr old rest = false := by
  unfold containsStr at h ⊢
  rw [strFind] at h
  cases hp : old.isPrefixOf (c :: rest) with
  | true => rw [hp] at h; simp at h
  | false =>
    refine ⟨rfl, ?_⟩
    cases hf : strFind old rest with
    | none => simp [hf]
    | some k => rw [hp, hf] at h; simp at h

theorem replAllF_eq_self (old new : PyStr) :
    ∀ (fuel : Nat) (s : PyStr), containsStr old s = false → replAllF old new fuel s = s
  | 0, s, _ => by cases s <;> rfl
  | _ + 1, [], _ => rfl
  | fuel + 1, c :: rest, h => by
    obtain ⟨hp, hrest⟩ := containsStr_cons_false h
    rw [replAllF, if_neg]
    · rw [replAllF_eq_self old new fuel rest hrest]
    · simp [hp]

theorem replAll_eq_self {old new s : PyStr} (h : containsStr old s = false) :
    replAll old new s = s := by
  have hne : old ≠ [] := by
    intro he
    rw [he, containsStr_nil_left] at h
    exact absurd h (by decide)
  rw [replAll, if_neg hne]
  exact replAllF_eq_self old new s.length s h

theorem literal_subst_eq_self {line : PyStr} (h1 : containsStr (S "true") line = false)
    (h2 : containsStr (S "false") line = false) (h3 : containsStr (S "null") line = false) :
    literal_subst line = line := by
  unfold literal_subst
  rw [replAll_eq_self h1, replAll_eq_self h2, replAll_eq_self h3]

/-- Claim C5 (confirmed): `convert_for_loop` on the counting-loop header
`for (var i = 0; i < 10; i++) \x7b` yields the header
`for i in range(0, 10, 1):` with the leading `for ` prefix and the
trailing ` \x7b` suffix outside the parenthesized span preserved verbatim. -/
theorem c5_counting_loop :
    convert_for_loop (S "for (var i = 0; i < 10; i++) \x7b")
      = some (S "for " ++ S "i in range(0, 10, 1):" ++ S " \x7b") := by decide

/-- Claim C4, counterexample: on the membership-style header
`for (var f in list) \x7b`, `convert_for_loop` does not preserve the
parenthesized header — neither before nor after the caller's brace
removal does the result equal `for (f in list):` (or that header with the
brace still attached). -/
theorem c4_membership_loop_counterexample :
    convert_for_loop (S "for (var f in list) \x7b") ≠ some (S "for (f in list):") ∧
    convert_for_loop (S "for (var f in list) \x7b") ≠ some (S "for (f in list): \x7b") ∧
    (convert_for_loop (S "for (var f in list) \x7b")).map (replAll (S "\x7b") [])
      ≠ some (S "for (f in list):") := by decide

/-- Claim C4 (amended): `convert_for_loop` on the membership-style header
`for (var f in list) \x7b` removes the `var ` keyword and the parentheses
around the loop header, appends a colon to the header text, and preserves
the text outside the parentheses (the `for ` prefix and the ` \x7b` suffix,
the brace being removed later by the caller): the result is
`for f in list: \x7b`. -/
theorem c4_membership_loop :
    convert_for_loop (S "for (var f in list) \x7b")
      = some (S "for " ++ S "f in list" ++ S ":" ++ S " \x7b") := by decide

/-- Claim C8 (confirmed): `format_params` quotes the bare key before each
colon of a multi-pair line, `min: 0, max: 10` becoming
`'min': 0, 'max': 10`, and preserves leading whitespace padding (second
conjunct). -/
theorem c8_key_quoter :
    format_params (S "min: 0, max: 10") = some (S "'min': 0, 'max': 10") ∧
    format_params (S "  min: 0, max: 10") = some (S "  'min': 0, 'max': 10") := by decide

/-- Claim C10 (confirmed): `find_matching_bracket` is not total: on the
input line `\x7d` with start position (0, 0) — whose start character is
not the opening bracket `\x7b`, and where the closing bracket occurs while
no opening bracket is pending — the scan pops from an empty deque and
raises (`.error ()`) instead of returning the sentinel. -/
theorem c10_bracket_matcher_raises :
    find_matching_bracket [S "\x7d"] 0 0 '\x7b' = .error () ∧
    charAt [S "\x7d"] 0 0 ≠ some '\x7b' := by
  exact ⟨rfl, by decide⟩

/-- Claim C9, counterexample: the three literal substitutions are plain
substring replacements, so on the line `var nulled = 1;` they alter the
characters of the identifier token `nulled`, yielding `var \x7b\x7ded = 1;`. -/
theorem c9_literal_subst_counterexample :
    literal_subst (S "var nulled = 1;") = S "var \x7b\x7ded = 1;" ∧
    literal_subst (S "var nulled = 1;") ≠ S "var nulled = 1;" := by decide

/-- Claim C9 (amended): the pipeline's literal substitutions replace every
occurrence of the substrings `true`, `false` and `null` by `True`, `False`
and the empty dict literal respectively — on whole-token occurrences this
is the claimed mapping (first three conjuncts) — and a line containing
none of the three substrings is left entirely unaltered; however the
replacement is substring-based, not token-based. -/
theorem c9_literal_subst :
    literal_subst (S "x = true;") = S "x = True;" ∧
    literal_subst (S "x = false;") = S "x = False;" ∧
    literal_subst (S "x = null;") = S "x = \x7b\x7d;" ∧
    (∀ line : PyStr, containsStr (S "true") line = false →
      containsStr (S "false") line = false →
      containsStr (S "null") line = false → literal_subst line = line) := by
  refine ⟨by decide, by decide, by decide, ?_⟩
  intro line h1 h2 h3
  exact literal_subst_eq_self h1 h2 h3

/-- Claim C9, witness for the universally quantified conjunct: a line
without any of the three literal substrings is unchanged. -/
theorem c9_literal_subst_witness :
    literal_subst (S "x = Map.addLayer(y);") = S "x = Map.addLayer(y);" :=
  c9_literal_subst.2.2.2 (S "x = Map.addLayer(y);") (by decide) (by decide) (by decide)

/-- Claim C1, counterexample: hoisting the one-line call of `hoistIn`
produces five output lines for one input line, so `check_map_functions`
does not return a sequence of the same length as its input. -/
theorem c1_hoister_length_counterexample :
    check_map_functions demoNames hoistIn = some hoistOut ∧
    hoistOut.length = 5 ∧ hoistIn.length = 1 := by decide

/-- Claim C3, counterexample: the output of hoisting the one-line
`.map(function(f) \x7b return f.val(); \x7d)` call still contains a line
with an inline `.map(function` marker (the `func_footer` line duplicates
the original call through the closing brace), so re-running
`check_map_functions` on its own output is not a no-op. -/
theorem c3_hoister_noop_counterexample :
    check_map_functions demoNames hoistIn = some hoistOut ∧
    check_map_functions demoNames hoistOut ≠ some hoistOut := by decide

theorem blankFrom_length : ∀ (l : List PyStr) (s cnt : Nat), (blankFrom l s cnt).length = l.length
  | _, _, 0 => rfl
  | l, s, n + 1 => by
    rw [blankFrom, blankFrom_length (l.set s []) (s + 1) n, List.length_set]

theorem pySetI_length {α : Type} {l : List α} {i : Int} {x : α} {l2 : List α}
    (h : pySetI l i x = some l2) : l2.length = l.length := by
  unfold pySetI at h
  split_ifs at h <;>
    first
      | (injection h with h; rw [← h, List.length_set])
      | exact Option.noConfusion h

theorem cmfHoist_spec {fname : PyStr} {ls : List PyStr} {i : Nat} {line : PyStr}
    {ls2 app : List PyStr} (h : cmfHoist fname ls i line = some (ls2, app)) :
    ls2.length = ls.length ∧ 1 ≤ app.length := by
  rw [cmfHoist] at h
  simp only [Option.bind_eq_bind, Option.bind_eq_some, Option.some.injEq] at h
  obtain ⟨bi, hbi, mc, hmc, fsi, hfsi, mline, hmline, ls3, hset, heq⟩ := h
  obtain ⟨hls, happ⟩ := Prod.mk.injEq .. ▸ heq
  constructor
  · rw [← hls]
    rw [pySetI_length hset, blankFrom_length]
  · rw [← happ]
    simp [List.length_append]

theorem cmfGo_length (names : Nat → PyStr) :
    ∀ (fuel : Nat) (ls : List PyStr) (i ctr : Nat) (out res : List PyStr),
      ls.length ≤ fuel + i → cmfGo names fuel ls i ctr out = some res →
      out.length + (ls.length - i) ≤ res.length := by
  intro fuel
  induction fuel with
  | zero =>
    intro ls i ctr out res hle h
    rw [cmfGo] at h
    injection h with h
    subst h
    omega
  | succ fuel ih =>
    intro ls i ctr out res hle h
    rw [cmfGo] at h
    split at h
    · next hget =>
        injection h with h
        subst h
        have hlen : ls.length ≤ i := List.get?_eq_none.mp hget
        omega
    · next line hget =>
        have hi : i < ls.length := by
          rcases List.get?_eq_some.mp hget with ⟨hlt, _⟩
          exact hlt
        by_cases hm : hasMapMarker line = true
        · rw [if_pos hm] at h
          split at h
          · exact Option.noConfusion h
          · next ls2 app hh =>
              obtain ⟨hlen, happ⟩ := cmfHoist_spec hh
              have hrec := ih ls2 (i + 1) (ctr + 1) (out ++ app) res (by omega) h
              simp only [List.length_append] at hrec
              omega
        · rw [if_neg hm] at h
          have hrec := ih ls (i + 1) ctr (out ++ [line]) res (by omega) h
          simp only [List.length_append, List.length_cons, List.length_nil] at hrec
          omega

theorem cmfGo_no_marker (names : Nat → PyStr) :
    ∀ (fuel : Nat) (ls : List PyStr) (i ctr : Nat) (out : List PyStr),
      ls.length ≤ fuel + i → (∀ l ∈ ls, hasMapMarker l = false) →
      cmfGo names fuel ls i ctr out = some (out ++ ls.drop i) := by
  intro fuel
  induction fuel with
  | zero =>
    intro ls i ctr out hle hmk
    rw [cmfGo, List.drop_eq_nil_of_le (by omega), List.append_nil]
  | succ fuel ih =>
    intro ls i ctr out hle hmk
    rw [cmfGo]
    split
    · next hget =>
        have hlen : ls.length ≤ i := List.get?_eq_none.mp hget
        rw [List.drop_eq_nil_of_le hlen, List.append_nil]
    · next line hget =>
        have hi : i < ls.length := by
          rcases List.get?_eq_some.mp hget with ⟨hlt, _⟩
          exact hlt
        have hmem : line ∈ ls := List.get?_mem hget
        rw [if_neg (by simp [hmk line hmem])]
        have hdrop : ls.drop i = line :: ls.drop (i + 1) := by
          rw [List.drop_eq_getElem_cons hi]
          have hg := hget
          rw [List.get?_eq_getElem?, List.getElem?_eq_getElem hi] at hg
          injection hg with hg
          rw [hg]
        rw [ih ls (i + 1) ctr (out ++ [line]) (by omega) hmk, hdrop]
        simp

/-- Claim C1 (amended): `check_map_functions` returns a new sequence that
is at least as long as its input — hoisting blanks entries and appends the
extracted definition lines, so the length can grow (by four lines per
one-line hoisted call) but never shrinks. -/
theorem c1_hoister_length (names : Nat → PyStr) (lines out : List PyStr)
    (h : check_map_functions names lines = some out) : lines.length ≤ out.length := by
  have hrec := cmfGo_length names lines.length lines 0 0 [] out (by omega) h
  simpa using hrec

/-- Claim C1, witness: on the one-line hoisting example the output (of
length five) is at least as long as the input. -/
theorem c1_hoister_length_witness : hoistIn.length ≤ hoistOut.length :=
  c1_hoister_length demoNames hoistIn hoistOut (by decide)

/-- Claim C3 (amended): on any line list in which no line contains an
inline anonymous-function marker (`.map(function` or `.map (function`),
`check_map_functions` is a no-op, returning the sequence unchanged; the
output of hoisting a one-line call, however, still contains such a marker
(see the counterexample), so the claim's "in particular" instance fails. -/
theorem c3_hoister_noop (names : Nat → PyStr) (lines : List PyStr)
    (h : ∀ l ∈ lines, hasMapMarker l = false) :
    check_map_functions names lines = some lines := by
  have hrec := cmfGo_no_marker names lines.length lines 0 0 [] (by omega) h
  simpa using hrec

/-- Claim C3, witness: a marker-free two-line script is returned unchanged. -/
theorem c3_hoister_noop_witness :
    check_map_functions demoNames [S "x = 1;", S "print(x);"]
      = some [S "x = 1;", S "print(x);"] :=
  c3_hoister_noop demoNames [S "x = 1;", S "print(x);"] (by decide)

theorem foldlImportEe_true :
    ∀ (xs : List PyStr),
      List.foldl (fun acc l => if pyStrip l = S "import ee" then true else acc) true xs = true
  | [] => rfl
  | x :: xs => by
    rw [List.foldl_cons, ite_self]
    exact foldlImportEe_true xs

theorem isPythonScript_true_of_mem {lines : List PyStr} {l : PyStr} (hl : l ∈ lines)
    (hp : pyStrip l = S "import ee") : isPythonScript lines = true := by
  unfold isPythonScript
  induction lines with
  | nil => cases hl
  | cons x xs ih =>
    rw [List.foldl_cons]
    rcases List.mem_cons.mp hl with heq | hmem
    · subst heq
      rw [if_pos hp]
      exact foldlImportEe_true xs
    · by_cases hx : pyStrip x = S "import ee"
      · rw [if_pos hx]
        exact foldlImportEe_true xs
      · rw [if_neg hx]
        exact ih hmem

/-- Claim C7 (confirmed): if any line of the input file equals `import ee`
after stripping, `js_to_python` skips the whole transformation pipeline
and returns the original content unchanged except for the optional
prepended GitHub-URL provenance comment. -/
theorem c7_python_passthrough (names : Nat → PyStr) (lines : List PyStr) (use_qgis : Bool)
    (github_repo : Option PyStr) (in_file : PyStr) (l : PyStr) (hl : l ∈ lines)
    (hp : pyStrip l = S "import ee") :
    js_to_python_output names lines use_qgis github_repo in_file
      = some (githubUrlComment github_repo in_file ++ lines.flatten) := by
  unfold js_to_python_output
  rw [isPythonScript_true_of_mem hl hp]
  rfl

/-- Claim C7, witness: a two-line file containing the marker import line
is passed through unchanged (no provenance URL supplied). -/
theorem c7_python_passthrough_witness :
    js_to_python_output demoNames [S "import ee\n", S "x = 1\n"] true none (S "a.js")
      = some (S "import ee\nx = 1\n") := by
  rw [c7_python_passthrough demoNames [S "import ee\n", S "x = 1\n"] true none (S "a.js")
    (S "import ee\n") (by decide) (by decide)]
  decide

theorem bracketClose_ne {c d : Char} (h : bracketClose c = some d) : c ≠ d := by
  unfold bracketClose at h
  split_ifs at h with h1 h2 h3
  · injection h with h
    subst h
    subst h1
    decide
  · injection h with h
    subst h
    subst h2
    decide
  · injection h with h
    subst h
    subst h3
    decide

theorem drop_eq_cons_of_get? {α : Type} {l : List α} {n : Nat} {a : α} (h : l.get? n = some a) :
    l.drop n = a :: l.drop (n + 1) := by
  have hlt : n < l.length := by
    rcases List.get?_eq_some.mp h with ⟨hlt, _⟩
    exact hlt
  rw [List.drop_eq_getElem_cons hlt]
  have hg := h
  rw [List.get?_eq_getElem?, List.getElem?_eq_getElem hlt] at hg
  injection hg with hg
  rw [hg]

theorem scanLine_found (op cl : Char) (hne : op ≠ cl) :
    ∀ (l : PyStr) (d : Nat), 1 ≤ d →
      (∃ k, k < l.length ∧ d + (l.take (k + 1)).count op ≤ (l.take (k + 1)).count cl) →
      ∃ j, scanLine op cl l d = .found j ∧ j < l.length ∧ l.get? j = some cl ∧
        (l.take (j + 1)).count cl = d + (l.take (j + 1)).count op := by
  intro l
  induction l with
  | nil =>
    rintro d hd ⟨k, hk, _⟩
    exact absurd hk (by simp)
  | cons c rest ih =>
    rintro d hd ⟨k, hk, hc⟩
    rw [List.length_cons] at hk
    by_cases hccl : c = cl
    · rw [hccl] at hc ⊢
      by_cases hd1 : d = 1
      · subst hd1
        refine ⟨0, ?_, by simp, by simp, ?_⟩
        · rw [scanLine, if_pos rfl, if_neg (by omega), if_pos rfl]
        · simp only [List.take_succ_cons, List.take_zero, List.count_cons_self,
            List.count_cons_of_ne hne, List.count_nil]
      · rw [scanLine, if_pos rfl, if_neg (by omega), if_neg hd1]
        cases k with
        | zero =>
          exfalso
          simp only [List.take_succ_cons, List.take_zero, List.count_cons_self,
            List.count_cons_of_ne hne, List.count_nil] at hc
          omega
        | succ k2 =>
          simp only [List.take_succ_cons, List.count_cons_self,
            List.count_cons_of_ne hne] at hc
          obtain ⟨j, hj, hjlt, hjget, hjcnt⟩ := ih (d - 1) (by omega) ⟨k2, by omega, by omega⟩
          refine ⟨j + 1, ?_, by rw [List.length_cons]; omega, ?_, ?_⟩
          · rw [hj]
            rfl
          · rw [List.get?_cons_succ]
            exact hjget
          · simp only [List.take_succ_cons, List.count_cons_self,
              List.count_cons_of_ne hne]
            omega
    · by_cases hcop : c = op
      · rw [hcop] at hc ⊢
        rw [scanLine, if_neg hne, if_pos rfl]
        cases k with
        | zero =>
          exfalso
          simp only [List.take_succ_cons, List.take_zero, List.count_cons_self,
            List.count_cons_of_ne (Ne.symm hne), List.count_nil] at hc
          omega
        | succ k2 =>
          simp only [List.take_succ_cons, List.count_cons_self,
            List.count_cons_of_ne (Ne.symm hne)] at hc
          obtain ⟨j, hj, hjlt, hjget, hjcnt⟩ := ih (d + 1) (by omega) ⟨k2, by omega, by omega⟩
          refine ⟨j + 1, ?_, by rw [List.length_cons]; omega, ?_, ?_⟩
          · rw [hj]
            rfl
          · rw [List.get?_cons_succ]
            exact hjget
          · simp only [List.take_succ_cons, List.count_cons_self,
              List.count_cons_of_ne (Ne.symm hne)]
            omega
      · rw [scanLine, if_neg hccl, if_neg hcop, if_neg (by omega : ¬d = 0)]
        cases k with
        | zero =>
          exfalso
          simp only [List.take_succ_cons, List.take_zero,
            List.count_cons_of_ne (Ne.symm hccl), List.count_cons_of_ne (Ne.symm hcop),
            List.count_nil] at hc
          omega
        | succ k2 =>
          simp only [List.take_succ_cons, List.count_cons_of_ne (Ne.symm hccl),
            List.count_cons_of_ne (Ne.symm hcop)] at hc
          obtain ⟨j, hj, hjlt, hjget, hjcnt⟩ := ih d hd ⟨k2, by omega, hc⟩
          refine ⟨j + 1, ?_, by rw [List.length_cons]; omega, ?_, ?_⟩
          · rw [hj]
            rfl
          · rw [List.get?_cons_succ]
            exact hjget
          · simp only [List.take_succ_cons, List.count_cons_of_ne (Ne.symm hccl),
              List.count_cons_of_ne (Ne.symm hcop)]
            omega

theorem scanLine_cont (op cl : Char) (hne : op ≠ cl) :
    ∀ (l : PyStr) (d : Nat), 1 ≤ d →
      (∀ k, (l.take k).count cl < d + (l.take k).count op) →
      ∃ d2, scanLine op cl l d = .cont d2 ∧ 1 ≤ d2 ∧ d2 + l.count cl = d + l.count op := by
  intro l
  induction l with
  | nil =>
    intro d hd _
    exact ⟨d, rfl, hd, by simp⟩
  | cons c rest ih =>
    intro d hd hpre
    by_cases hccl : c = cl
    · rw [hccl] at hpre ⊢
      have hd2 : 2 ≤ d := by
        have h1 := hpre 1
        have ht : (cl :: rest).take 1 = [cl] := rfl
        rw [ht] at h1
        simp only [List.count_cons_self, List.count_cons_of_ne hne, List.count_nil] at h1
        omega
      have hside : ∀ k, (rest.take k).count cl < (d - 1) + (rest.take k).count op := by
        intro k
        have h1 := hpre (k + 1)
        simp only [List.take_succ_cons, List.count_cons_self,
          List.count_cons_of_ne hne] at h1
        omega
      obtain ⟨d2, h1, h2, h3⟩ := ih (d - 1) (by omega) hside
      refine ⟨d2, ?_, h2, ?_⟩
      · rw [scanLine, if_pos rfl, if_neg (by omega), if_neg (by omega), h1]
        rfl
      · simp only [List.count_cons_self, List.count_cons_of_ne hne]
        omega
    · by_cases hcop : c = op
      · rw [hcop] at hpre ⊢
        have hside : ∀ k, (rest.take k).count cl < (d + 1) + (rest.take k).count op := by
          intro k
          have h1 := hpre (k + 1)
          simp only [List.take_succ_cons, List.count_cons_self,
            List.count_cons_of_ne (Ne.symm hne)] at h1
          omega
        obtain ⟨d2, h1, h2, h3⟩ := ih (d + 1) (by omega) hside
        refine ⟨d2, ?_, h2, ?_⟩
        · rw [scanLine, if_neg hne, if_pos rfl, h1]
          rfl
        · simp only [List.count_cons_self, List.count_cons_of_ne (Ne.symm hne)]
          omega
      · have hside : ∀ k, (rest.take k).count cl < d + (rest.take k).count op := by
          intro k
          have h1 := hpre (k + 1)
          simp only [List.take_succ_cons, List.count_cons_of_ne (Ne.symm hccl),
            List.count_cons_of_ne (Ne.symm hcop)] at h1
          omega
        obtain ⟨d2, h1, h2, h3⟩ := ih d hd hside
        refine ⟨d2, ?_, h2, ?_⟩
        · rw [scanLine, if_neg hccl, if_neg hcop, if_neg (by omega : ¬d = 0), h1]
          rfl
        · simp only [List.count_cons_of_ne (Ne.symm hccl),
            List.count_cons_of_ne (Ne.symm hcop)]
          omega

theorem scanLines_found (op cl : Char) (hne : op ≠ cl) :
    ∀ (L : List PyStr) (d : Nat), 1 ≤ d →
      (∃ k, k < L.flatten.length ∧
        d + (L.flatten.take (k + 1)).count op ≤ (L.flatten.take (k + 1)).count cl) →
      ∃ r j lr, scanLines op cl L d = .ok (some (r, j)) ∧ L.get? r = some lr ∧
        j < lr.length ∧ lr.get? j = some cl ∧
        (takeThrough L r j).count cl = d + (takeThrough L r j).count op := by
  intro L
  induction L with
  | nil =>
    rintro d hd ⟨k, hk, _⟩
    rw [List.flatten_nil] at hk
    exact absurd hk (by simp)
  | cons l rest ih =>
    rintro d hd ⟨k, hk, hc⟩
    rw [List.flatten_cons] at hk hc
    by_cases hin : ∃ k2, k2 < l.length ∧
        d + (l.take (k2 + 1)).count op ≤ (l.take (k2 + 1)).count cl
    · obtain ⟨j, hj, hjlt, hjget, hjcnt⟩ := scanLine_found op cl hne l d hd hin
      refine ⟨0, j, l, ?_, rfl, hjlt, hjget, ?_⟩
      · rw [scanLines, hj]
      · have ht : takeThrough (l :: rest) 0 j = l.take (j + 1) := rfl
        rw [ht]
        exact hjcnt
    · push_neg at hin
      have hall : ∀ k2, (l.take k2).count cl < d + (l.take k2).count op := by
        intro k2
        cases k2 with
        | zero => simpa using hd
        | succ k3 =>
          by_cases hlt : k3 < l.length
          · exact hin k3 hlt
          · rw [List.take_of_length_le (by omega)]
            rcases Nat.eq_zero_or_pos l.length with hz | hpos
            · rw [List.length_eq_zero.mp hz]
              simpa using hd
            · have h2 := hin (l.length - 1) (by omega)
              rw [show l.length - 1 + 1 = l.length from by omega, List.take_length] at h2
              exact h2
      obtain ⟨d2, hcont, hd2, hcnt⟩ := scanLine_cont op cl hne l d hd hall
      have hkge : l.length ≤ k := by
        by_contra hlt
        push_neg at hlt
        have h1 := hall (k + 1)
        rw [List.take_append_eq_append_take, show k + 1 - l.length = 0 from by omega,
          List.take_zero, List.append_nil] at hc
        omega
      have hcross : ∃ k2, k2 < rest.flatten.length ∧
          d2 + (rest.flatten.take (k2 + 1)).count op ≤ (rest.flatten.take (k2 + 1)).count cl := by
        refine ⟨k - l.length, ?_, ?_⟩
        · rw [List.length_append] at hk
          omega
        · rw [List.take_append_eq_append_take, List.take_of_length_le (by omega),
            List.count_append, List.count_append,
            show k + 1 - l.length = k - l.length + 1 from by omega] at hc
          omega
      obtain ⟨r, j, lr, hsc2, hget, hjlt, hjget, hcnt2⟩ := ih d2 hd2 hcross
      refine ⟨r + 1, j, lr, ?_, ?_, hjlt, hjget, ?_⟩
      · rw [scanLines, hcont]
        show (match scanLines op cl rest d2 with
          | .error () => .error ()
          | .ok none => .ok none
          | .ok (some (r2, j2)) => .ok (some (r2 + 1, j2))) = Except.ok (some (r + 1, j))
        rw [hsc2]
      · rw [List.get?_cons_succ]
        exact hget
      · have ht : takeThrough (l :: rest) (r + 1) j = l ++ takeThrough rest r j := rfl
        rw [ht, List.count_append, List.count_append]
        omega

theorem scanLines_exhaust (op cl : Char) (hne : op ≠ cl) :
    ∀ (L : List PyStr) (d : Nat), 1 ≤ d →
      (∀ k, (L.flatten.take k).count cl < d + (L.flatten.take k).count op) →
      scanLines op cl L d = .ok none := by
  intro L
  induction L with
  | nil =>
    intro d _ _
    rfl
  | cons l rest ih =>
    intro d hd hpre
    have hpre2 : ∀ k, ((l ++ rest.flatten).take k).count cl
        < d + ((l ++ rest.flatten).take k).count op := by
      intro k
      have h1 := hpre k
      rw [List.flatten_cons] at h1
      exact h1
    have hall : ∀ k, (l.take k).count cl < d + (l.take k).count op := by
      intro k
      by_cases hk : k ≤ l.length
      · have h1 := hpre2 k
        rw [List.take_append_eq_append_take, show k - l.length = 0 from by omega,
          List.take_zero, List.append_nil] at h1
        exact h1
      · rw [List.take_of_length_le (by omega)]
        have h1 := hpre2 l.length
        rw [List.take_append_eq_append_take, Nat.sub_self, List.take_zero,
          List.append_nil, List.take_length] at h1
        exact h1
    obtain ⟨d2, hcont, hd2, hcnt⟩ := scanLine_cont op cl hne l d hd hall
    have hrest : ∀ k, (rest.flatten.take k).count cl
        < d2 + (rest.flatten.take k).count op := by
      intro k
      have h1 := hpre2 (l.length + k)
      rw [List.take_append_eq_append_take, show l.length + k - l.length = k from by omega,
        List.take_of_length_le (by omega : l.length ≤ l.length + k),
        List.count_append, List.count_append] at h1
      omega
    rw [scanLines, hcont]
    show (match scanLines op cl rest d2 with
      | .error () => .error ()
      | .ok none => .ok none
      | .ok (some (r2, j2)) => .ok (some (r2 + 1, j2))) = Except.ok none
    rw [ih d2 hd2 hrest]

theorem scanLines_start_open (op cl : Char) (hne : op ≠ cl) (l2 : PyStr) (rest : List PyStr) :
    scanLines op cl ((op :: l2) :: rest) 0 =
      (match scanLines op cl (l2 :: rest) 1 with
        | .error () => .error ()
        | .ok none => .ok none
        | .ok (some (0, j)) => .ok (some (0, j + 1))
        | .ok (some (r + 1, j)) => .ok (some (r + 1, j))) := by
  have hstep : scanLine op cl (op :: l2) 0 = bumpR (scanLine op cl l2 1) := by
    rw [scanLine, if_neg hne, if_pos rfl]
  rw [scanLines, scanLines, hstep]
  cases hsl : scanLine op cl l2 1 with
  | err => rfl
  | found j => rfl
  | cont d2 =>
    show (match scanLines op cl rest d2 with
        | Except.error () => Except.error ()
        | Except.ok none => Except.ok none
        | Except.ok (some (r, j)) => Except.ok (some (r + 1, j))) =
      (match (match scanLines op cl rest d2 with
          | Except.error () => (Except.error () : Except Unit (Option (Nat × Nat)))
          | Except.ok none => Except.ok none
          | Except.ok (some (r, j)) => Except.ok (some (r + 1, j))) with
        | Except.error () => Except.error ()
        | Except.ok none => Except.ok none
        | Except.ok (some (0, j)) => Except.ok (some (0, j + 1))
        | Except.ok (some (r + 1, j)) => Except.ok (some (r + 1, j)))
    cases hrest : scanLines op cl rest d2 with
    | error e =>
      cases e
      rfl
    | ok o =>
      cases o with
      | none => rfl
      | some p =>
        obtain ⟨r, j⟩ := p
        cases r with
        | zero => rfl
        | succ r2 => rfl

theorem fmb_reduce (lines : List PyStr) (sl sc : Nat) (ch cl : Char) (f : PyStr)
    (hsup : bracketClose ch = some cl) (hf : lines.get? sl = some f) :
    find_matching_bracket lines sl sc ch =
      (match scanLines ch cl (f.drop sc :: lines.drop (sl + 1)) 0 with
        | Except.error () => Except.error ()
        | Except.ok none => Except.ok (-1, -1)
        | Except.ok (some (0, j)) => Except.ok ((sl : Int), ((sc + j : Nat) : Int))
        | Except.ok (some (r + 1, j)) =>
            Except.ok (((sl + (r + 1) : Nat) : Int), (j : Int))) := by
  unfold find_matching_bracket
  rw [hsup, drop_eq_cons_of_get? hf]

/-- Claim C2 (confirmed): when the character at the start position is the
given opening bracket (one of the three supported kinds) and the text from
there on is balanced for that bracket kind (equal numbers of opening and
closing characters), `find_matching_bracket` returns a position whose
character is the closing counterpart of the opening bracket, and the span
from the start position through the match position (both inclusive)
contains equal counts of opening and closing brackets of that kind. -/
theorem c2_bracket_match (lines : List PyStr) (sl sc : Nat) (ch cl : Char)
    (hsup : bracketClose ch = some cl)
    (hstart : charAt lines sl sc = some ch)
    (hbal : (flatFrom lines sl sc).count ch = (flatFrom lines sl sc).count cl) :
    ∃ ml mc : Nat, find_matching_bracket lines sl sc ch = .ok ((ml : Int), (mc : Int)) ∧
      charAt lines ml mc = some cl ∧
      (spanChars lines sl sc ml mc).count ch = (spanChars lines sl sc ml mc).count cl := by
  have hne : ch ≠ cl := bracketClose_ne hsup
  unfold charAt at hstart
  cases hf : lines.get? sl with
  | none =>
    rw [hf] at hstart
    cases hstart
  | some f =>
    rw [hf] at hstart
    have hfc : f.get? sc = some ch := hstart
    have hdl : lines.drop sl = f :: lines.drop (sl + 1) := drop_eq_cons_of_get? hf
    have hdc : f.drop sc = ch :: f.drop (sc + 1) := drop_eq_cons_of_get? hfc
    have hslice : sliceFrom lines sl sc = (ch :: f.drop (sc + 1)) :: lines.drop (sl + 1) := by
      unfold sliceFrom
      rw [hdl]
      show f.drop sc :: lines.drop (sl + 1) = (ch :: f.drop (sc + 1)) :: lines.drop (sl + 1)
      rw [hdc]
    have hflat : flatFrom lines sl sc
        = ch :: (f.drop (sc + 1) :: lines.drop (sl + 1)).flatten := by
      unfold flatFrom
      rw [hslice, List.flatten_cons, List.flatten_cons]
      rfl
    rw [hflat, List.count_cons_self, List.count_cons_of_ne (Ne.symm hne)] at hbal
    have hTlen : 1 ≤ (f.drop (sc + 1) :: lines.drop (sl + 1)).flatten.length := by
      cases hTc : (f.drop (sc + 1) :: lines.drop (sl + 1)).flatten with
      | nil =>
        rw [hTc] at hbal
        simp at hbal
      | cons a as =>
        rw [List.length_cons]
        omega
    have hcross : ∃ k, k < (f.drop (sc + 1) :: lines.drop (sl + 1)).flatten.length ∧
        1 + ((f.drop (sc + 1) :: lines.drop (sl + 1)).flatten.take (k + 1)).count ch
          ≤ ((f.drop (sc + 1) :: lines.drop (sl + 1)).flatten.take (k + 1)).count cl := by
      refine ⟨(f.drop (sc + 1) :: lines.drop (sl + 1)).flatten.length - 1, by omega, ?_⟩
      rw [show (f.drop (sc + 1) :: lines.drop (sl + 1)).flatten.length - 1 + 1
        = (f.drop (sc + 1) :: lines.drop (sl + 1)).flatten.length from by omega,
        List.take_length]
      omega
    obtain ⟨r, j, lr, hsl2, hget, hjlt, hjget, hcnt⟩ :=
      scanLines_found ch cl hne (f.drop (sc + 1) :: lines.drop (sl + 1)) 1 (by omega) hcross
    have hbridge := scanLines_start_open ch cl hne (f.drop (sc + 1)) (lines.drop (sl + 1))
    rw [hsl2] at hbridge
    have hfmb := fmb_reduce lines sl sc ch cl f hsup hf
    rw [hdc] at hfmb
    cases r with
    | zero =>
      have hb2 : scanLines ch cl ((ch :: f.drop (sc + 1)) :: lines.drop (sl + 1)) 0
          = .ok (some (0, j + 1)) := by
        rw [hbridge]
      rw [hb2] at hfmb
      rw [List.get?_cons_zero] at hget
      injection hget with hget
      subst hget
      refine ⟨sl, sc + (j + 1), hfmb, ?_, ?_⟩
      · unfold charAt
        rw [hf]
        show f.get? (sc + (j + 1)) = some cl
        have hgd := List.get?_drop f sc (j + 1)
        rw [hdc, List.get?_cons_succ] at hgd
        rw [← hgd]
        exact hjget
      · unfold spanChars
        rw [hslice, if_pos rfl, Nat.sub_self, Nat.add_sub_cancel_left]
        show ((ch :: f.drop (sc + 1)).take (j + 1 + 1)).count ch
          = ((ch :: f.drop (sc + 1)).take (j + 1 + 1)).count cl
        rw [List.take_succ_cons, List.count_cons_self, List.count_cons_of_ne (Ne.symm hne)]
        have hcnt2 : ((f.drop (sc + 1)).take (j + 1)).count cl
            = 1 + ((f.drop (sc + 1)).take (j + 1)).count ch := hcnt
        omega
    | succ r2 =>
      have hb2 : scanLines ch cl ((ch :: f.drop (sc + 1)) :: lines.drop (sl + 1)) 0
          = .ok (some (r2 + 1, j)) := by
        rw [hbridge]
      rw [hb2] at hfmb
      rw [List.get?_cons_succ] at hget
      refine ⟨sl + (r2 + 1), j, hfmb, ?_, ?_⟩
      · unfold charAt
        have hlg : lines.get? (sl + (r2 + 1)) = some lr := by
          have hgd := List.get?_drop lines (sl + 1) r2
          rw [show sl + 1 + r2 = sl + (r2 + 1) from by omega] at hgd
          rw [← hgd]
          exact hget
        rw [hlg]
        exact hjget
      · unfold spanChars
        rw [hslice, if_neg (by omega : ¬(sl + (r2 + 1) = sl)),
          show sl + (r2 + 1) - sl = r2 + 1 from by omega]
        show ((ch :: f.drop (sc + 1)) ++ takeThrough (lines.drop (sl + 1)) r2 j).count ch
          = ((ch :: f.drop (sc + 1)) ++ takeThrough (lines.drop (sl + 1)) r2 j).count cl
        have hcnt2 : (f.drop (sc + 1) ++ takeThrough (lines.drop (sl + 1)) r2 j).count cl
            = 1 + (f.drop (sc + 1) ++ takeThrough (lines.drop (sl + 1)) r2 j).count ch := hcnt
        rw [List.count_append, List.count_append] at hcnt2
        rw [List.cons_append, List.count_cons_self, List.count_cons_of_ne (Ne.symm hne),
          List.count_append, List.count_append]
        omega

/-- Claim C2, witness: on the single line `(a)` starting at the opening
parenthesis, the matcher returns position (0, 2), whose character is `)`,
and the span `(a)` has one opening and one closing parenthesis. -/
theorem c2_bracket_match_witness :
    find_matching_bracket [S "(a)"] 0 0 '(' = .ok (0, 2) ∧
      charAt [S "(a)"] 0 2 = some ')' ∧
      (spanChars [S "(a)"] 0 0 0 2).count '(' = (spanChars [S "(a)"] 0 0 0 2).count ')' := by
  obtain ⟨ml, mc, h1, h2, h3⟩ :=
    c2_bracket_match [S "(a)"] 0 0 '(' ')' (by decide) (by decide) (by decide)
  have hcomp : find_matching_bracket [S "(a)"] 0 0 '(' = .ok (0, 2) := rfl
  rw [hcomp] at h1
  injection h1 with h1
  rw [Prod.mk.injEq] at h1
  obtain ⟨hm, hc⟩ := h1
  have hm2 : ml = 0 := by omega
  have hc2 : mc = 2 := by omega
  subst hm2
  subst hc2
  exact ⟨hcomp, h2, h3⟩

/-- Claim C6 (confirmed): when the character at the start position is the
given opening bracket and no balancing closing counterpart occurs before
the end of the input (every prefix of the text from the start position has
strictly more opening than closing brackets, i.e. the conceptual stack
never empties), `find_matching_bracket` returns the sentinel pair
`(-1, -1)` and does not raise. -/
theorem c6_no_close_sentinel (lines : List PyStr) (sl sc : Nat) (ch cl : Char)
    (hsup : bracketClose ch = some cl)
    (hstart : charAt lines sl sc = some ch)
    (hnever : ∀ k, k < (flatFrom lines sl sc).length →
      ((flatFrom lines sl sc).take (k + 1)).count cl
        < ((flatFrom lines sl sc).take (k + 1)).count ch) :
    find_matching_bracket lines sl sc ch = .ok (-1, -1) := by
  have hne : ch ≠ cl := bracketClose_ne hsup
  unfold charAt at hstart
  cases hf : lines.get? sl with
  | none =>
    rw [hf] at hstart
    cases hstart
  | some f =>
    rw [hf] at hstart
    have hfc : f.get? sc = some ch := hstart
    have hdl : lines.drop sl = f :: lines.drop (sl + 1) := drop_eq_cons_of_get? hf
    have hdc : f.drop sc = ch :: f.drop (sc + 1) := drop_eq_cons_of_get? hfc
    have hslice : sliceFrom lines sl sc = (ch :: f.drop (sc + 1)) :: lines.drop (sl + 1) := by
      unfold sliceFrom
      rw [hdl]
      show f.drop sc :: lines.drop (sl + 1) = (ch :: f.drop (sc + 1)) :: lines.drop (sl + 1)
      rw [hdc]
    have hflat : flatFrom lines sl sc
        = ch :: (f.drop (sc + 1) :: lines.drop (sl + 1)).flatten := by
      unfold flatFrom
      rw [hslice, List.flatten_cons, List.flatten_cons]
      rfl
    rw [hflat] at hnever
    have hall : ∀ k, ((f.drop (sc + 1) :: lines.drop (sl + 1)).flatten.take k).count cl
        < 1 + ((f.drop (sc + 1) :: lines.drop (sl + 1)).flatten.take k).count ch := by
      intro k
      cases k with
      | zero => simp
      | succ k2 =>
        by_cases hk : k2 + 1 ≤ (f.drop (sc + 1) :: lines.drop (sl + 1)).flatten.length
        · have h1 := hnever (k2 + 1) (by rw [List.length_cons]; omega)
          rw [List.take_succ_cons, List.count_cons_of_ne (Ne.symm hne),
            List.count_cons_self] at h1
          omega
        · rw [List.take_of_length_le (by omega)]
          have h1 := hnever (f.drop (sc + 1) :: lines.drop (sl + 1)).flatten.length
            (by rw [List.length_cons]; omega)
          rw [List.take_succ_cons, List.take_length, List.count_cons_of_ne (Ne.symm hne),
            List.count_cons_self] at h1
          omega
    have hex := scanLines_exhaust ch cl hne (f.drop (sc + 1) :: lines.drop (sl + 1)) 1
      (by omega) hall
    have hbridge := scanLines_start_open ch cl hne (f.drop (sc + 1)) (lines.drop (sl + 1))
    rw [hex] at hbridge
    have hb2 : scanLines ch cl ((ch :: f.drop (sc + 1)) :: lines.drop (sl + 1)) 0
        = .ok none := by
      rw [hbridge]
    have hfmb := fmb_reduce lines sl sc ch cl f hsup hf
    rw [hdc, hb2] at hfmb
    exact hfmb

/-- Claim C6, witness: on the single line `((a)` the second opening
parenthesis is never balanced, and the matcher returns the sentinel. -/
theorem c6_no_close_sentinel_witness :
    find_matching_bracket [S "((a)"] 0 0 '(' = .ok (-1, -1) :=
  c6_no_close_sentinel [S "((a)"] 0 0 '(' ')' (by decide) (by decide) (by decide)
